import Mathlib

/-
  Shallow embedding of the MMU / instruction-fetch core of a RISC-V
  functional simulator (riscv/mmu.h).  Machine words (reg_t) are modelled
  as Nat; the C idioms `a & ~(PGSIZE-1)` and `a & (PGSIZE-1)` on unsigned
  64-bit values are translated to `a / PGSIZE * PGSIZE` and `a % PGSIZE`,
  which agree with the source for every representable address.  The bodies
  of walk / refill / flush (mmu.cc), the trap declarations (trap.h), the
  instruction container (decode.h) and the dispatch table (processor.h)
  are not part of the given source tree; they are modelled from the spec
  and are marked as such below.
-/

namespace MMU

-- virtual memory configuration (mmu.h)
def LEVELS : Nat := 4

def PGSHIFT : Nat := 12

-- PGSIZE = 1 << PGSHIFT  (mmu.h)
def PGSIZE : Nat := 1 <<< PGSHIFT

-- PTIDXBITS = PGSHIFT - 3 for 8-byte PTEs  (mmu.h)
def PTIDXBITS : Nat := PGSHIFT - 3

-- page table entry (PTE) field masks (mmu.h)
def PTE_T : Nat := 0x001

def PTE_E : Nat := 0x002

def PTE_UX : Nat := 0x010

def PTE_UW : Nat := 0x020

def PTE_UR : Nat := 0x040

def PTE_SX : Nat := 0x080

def PTE_SW : Nat := 0x100

def PTE_SR : Nat := 0x200

def PTE_PERM : Nat := PTE_SR ||| PTE_SW ||| PTE_SX ||| PTE_UR ||| PTE_UW ||| PTE_UX

def PTE_PPN_SHIFT : Nat := 12

-- cache geometry (mmu.h)
def TLB_ENTRIES : Nat := 256

def ICACHE_ENTRIES : Nat := 256

/-- Modelled from the spec: the flush operations reset every tag to a
sentinel that never equals a real address or page tag; the historical
implementation memsets the tag arrays to all-ones, i.e. 2^64 - 1. -/
def SENTINEL : Nat := 2 ^ 64 - 1

/-- Modelled from the spec: the fault taxonomy of trap.h (not in src/):
misaligned-access, page-fault and access-violation faults, each tagged
with the access kind (load / store / fetch). -/
inductive Trap where
  | load_address_misaligned
  | store_address_misaligned
  | instruction_address_misaligned
  | load_page_fault
  | store_page_fault
  | instruction_page_fault
  | load_access_fault
  | store_access_fault
  | instruction_access_fault
  deriving DecidableEq

/-- Is the trap one of the three misaligned-access faults? -/
def Trap.isMisaligned : Trap → Bool
  | .load_address_misaligned => true
  | .store_address_misaligned => true
  | .instruction_address_misaligned => true
  | _ => false

/-- The MMU context state of mmu_t (mmu.h): backing memory view, fault
register, page-table base, mode flags, the three per-kind TLB tag arrays
sharing one data array, and the instruction cache.  Arrays are modelled
as functions from Nat, always indexed modulo their size. -/
structure MMUState where
  mem : Nat → Nat
  memsz : Nat
  badvaddr : Nat
  ptbr : Nat
  supervisor : Bool
  vm_enabled : Bool
  tlb_data : Nat → Nat
  tlb_insn_tag : Nat → Nat
  tlb_load_tag : Nat → Nat
  tlb_store_tag : Nat → Nat
  icache_data : Nat → Nat
  icache_func : Nat → Nat
  icache_tag : Nat → Nat

/-- Point update of an array modelled as a function. -/
def upd (f : Nat → Nat) (i v : Nat) : Nat → Nat :=
  fun j => if j = i then v else f j

/-- Little-endian read of n bytes from the backing buffer (the C code
dereferences a uintN pointer into the byte buffer on a little-endian
host); each byte is taken modulo 256. -/
def readBytes (mem : Nat → Nat) (off : Nat) : Nat → Nat
  | 0 => 0
  | n + 1 => mem off % 256 + 256 * readBytes mem (off + 1) n

/-- Little-endian write of n bytes of val into the backing buffer. -/
def writeBytes (mem : Nat → Nat) (off val : Nat) : Nat → Nat → Nat
  | 0 => mem
  | n + 1 => writeBytes (upd mem off (val % 256)) (off + 1) (val / 256) n

/-- Modelled from the spec: the decode-handle collaborators that live in
processor.h and decode.h (not in src/): the dispatch-table size, the
dispatch lookup (a pure function of the raw bits modulo the table size),
and the INSN_IS_RVC test for a complete short-form instruction. -/
structure ProcCfg where
  dtSize : Nat
  dispatch : Nat → Nat
  isRVC : Nat → Bool

/-- Result of an access: either a trap together with the state at the
throw point (badvaddr already recorded), or a resolved buffer offset
together with the updated state. -/
abbrev MMUResult (α : Type) := Except (Trap × MMUState) (α × MMUState)

def resultAddr : MMUResult Nat → Option Nat
  | .ok (p, _) => some p
  | .error _ => none

def resultTrap {α : Type} : MMUResult α → Option Trap
  | .ok _ => none
  | .error (t, _) => some t

def stateOf {α : Type} : MMUResult α → MMUState
  | .ok (_, s) => s
  | .error (_, s) => s

/-- Modelled from the spec: one step of the Page-Table Walker (mmu.cc is
not in src/).  From the most significant index slice down: read the PTE
at the current table base; a table descriptor descends, a leaf entry is
returned, any other encoding faults; exhausting the levels faults. -/
def walkLevels (mem : Nat → Nat) (addr : Nat) : Nat → Nat → Option Nat
  | 0, _ => none
  | n + 1, base =>
    let i := (addr >>> (PGSHIFT + n * PTIDXBITS)) % (1 <<< PTIDXBITS)
    let pte := readBytes mem (base + 8 * i) 8
    if pte &&& PTE_T ≠ 0 ∧ pte &&& PTE_E = 0 then
      walkLevels mem addr n ((pte >>> PTE_PPN_SHIFT) <<< PGSHIFT)
    else if pte &&& PTE_E ≠ 0 ∧ pte &&& PTE_T = 0 then
      some pte
    else
      none

/-- Modelled from the spec: the Page-Table Walker (mmu.cc is not in
src/).  When virtual memory is disabled the walk succeeds trivially with
an identity mapping (full permissions) for in-buffer addresses, so that
the resolved location equals the address; otherwise it performs the
four-level radix walk rooted at the page-table base. -/
def walk (st : MMUState) (addr : Nat) : Option Nat :=
  if st.vm_enabled = false then
    if addr < st.memsz then
      some (PTE_E ||| PTE_PERM ||| ((addr >>> PGSHIFT) <<< PTE_PPN_SHIFT))
    else
      none
  else
    walkLevels st.mem addr LEVELS st.ptbr

/-- The page-fault trap for an access kind. -/
def pageFaultFor (store fetch : Bool) : Trap :=
  if fetch then .instruction_page_fault
  else if store then .store_page_fault
  else .load_page_fault

/-- The access-violation trap for an access kind. -/
def accessFaultFor (store fetch : Bool) : Trap :=
  if fetch then .instruction_access_fault
  else if store then .store_access_fault
  else .load_access_fault

/-- The PTE permission bit required for a (privilege, kind) pair. -/
def permBit (supervisor store fetch : Bool) : Nat :=
  if fetch then (if supervisor then PTE_SX else PTE_UX)
  else if store then (if supervisor then PTE_SW else PTE_UW)
  else (if supervisor then PTE_SR else PTE_UR)

/-- Modelled from the spec: the Refill Unit (mmu.cc is not in src/).
Walks; on walk failure raises the kind-tagged page fault recording the
address; on a missing permission bit raises the kind-tagged access
violation recording the address; otherwise installs the page-aligned tag
into the access-kind tag array and the physical page base into the
shared tlb_data array (both declared in mmu.h) at slot
(addr >> PGSHIFT) mod TLB_ENTRIES, and returns the composed offset. -/
def refill (st : MMUState) (addr : Nat) (store fetch : Bool) : MMUResult Nat :=
  match walk st addr with
  | none => .error (pageFaultFor store fetch, { st with badvaddr := addr })
  | some pte =>
    if pte &&& permBit st.supervisor store fetch = 0 then
      .error (accessFaultFor store fetch, { st with badvaddr := addr })
    else
      let idx := (addr >>> PGSHIFT) % TLB_ENTRIES
      let base := (pte >>> PTE_PPN_SHIFT) <<< PGSHIFT
      let tag := addr / PGSIZE * PGSIZE
      let st2 :=
        if fetch then
          { st with tlb_insn_tag := upd st.tlb_insn_tag idx tag,
                    tlb_data := upd st.tlb_data idx base }
        else if store then
          { st with tlb_store_tag := upd st.tlb_store_tag idx tag,
                    tlb_data := upd st.tlb_data idx base }
        else
          { st with tlb_load_tag := upd st.tlb_load_tag idx tag,
                    tlb_data := upd st.tlb_data idx base }
      .ok (base ||| addr % PGSIZE, st2)

/-- mmu_t::translate (mmu.h lines 176-186): direct-mapped TLB fast path.
Selects the tag array by access kind, compares slot
(addr >> PGSHIFT) mod TLB_ENTRIES against addr & ~(PGSIZE-1); on a hit
returns (addr & (PGSIZE-1)) | tlb_data[idx] without touching state, on a
miss delegates to refill. -/
def translate (st : MMUState) (addr : Nat) (store fetch : Bool) : MMUResult Nat :=
  let idx := (addr >>> PGSHIFT) % TLB_ENTRIES
  let tagArr := if fetch then st.tlb_insn_tag
                else if store then st.tlb_store_tag
                else st.tlb_load_tag
  if tagArr idx = addr / PGSIZE * PGSIZE then
    .ok (addr % PGSIZE ||| st.tlb_data idx, st)
  else
    refill st addr store fetch

/-- The load_func macro body (mmu.h lines 43-52), parameterized by the
access size in bytes: misaligned addresses record badvaddr and raise the
load-misaligned trap before any translation; aligned addresses translate
with (store=false, fetch=false) and read sz bytes at the resolved
offset. -/
def load_value (st : MMUState) (sz addr : Nat) : MMUResult Nat :=
  if addr % sz ≠ 0 then
    .error (.load_address_misaligned, { st with badvaddr := addr })
  else
    match translate st addr false false with
    | .error e => .error e
    | .ok (p, st1) => .ok (readBytes st1.mem p sz, st1)

/-- The store_func macro body (mmu.h lines 67-76), parameterized by the
access size in bytes: misaligned addresses record badvaddr and raise the
store-misaligned trap before any translation; aligned addresses
translate with (store=true, fetch=false) and write the truncated value
at the resolved offset. -/
def store_value (st : MMUState) (sz addr val : Nat) : MMUResult Unit :=
  if addr % sz ≠ 0 then
    .error (.store_address_misaligned, { st with badvaddr := addr })
  else
    match translate st addr true false with
    | .error e => .error e
    | .ok (p, st1) => .ok ((), { st1 with mem := writeBytes st1.mem p val sz })

/-- mmu_t::load_insn (mmu.h lines 90-130).  The second component is the
value left in the out-parameter func at return or at the throw point
(none when the throw happens before any write to func).  On the
misaligned variable-length path (addr % 4 == 2 and rvc): translate the
low half-word, set func from the low bits, and when they are not a
complete short-form instruction translate addr+2 and or the high
half-word into bits 16..31.  Otherwise: the direct-mapped ICache path,
which writes func from the cached slot before the tag check. -/
def load_insn (cfg : ProcCfg) (st : MMUState) (addr : Nat) (rvc : Bool) :
    MMUResult Nat × Option Nat :=
  if addr % 4 = 2 ∧ rvc = true then
    match translate st addr false true with
    | .error e => (.error e, none)
    | .ok (pLo, st1) =>
      let lo := readBytes st1.mem pLo 2
      let f1 := cfg.dispatch (lo % cfg.dtSize)
      if cfg.isRVC lo then
        (.ok (lo, st1), some f1)
      else
        match translate st1 (addr + 2) false true with
        | .error e => (.error e, some f1)
        | .ok (pHi, st2) =>
          let hi := readBytes st2.mem pHi 2
          (.ok (lo ||| hi <<< 16, st2), some f1)
  else
    let idx := addr / 4 % ICACHE_ENTRIES
    let f0 := st.icache_func idx
    if st.icache_tag idx = addr then
      (.ok (st.icache_data idx, st), some f0)
    else
      match translate st addr false true with
      | .error e => (.error e, some f0)
      | .ok (p, st1) =>
        let insn := readBytes st1.mem p 4
        let f := cfg.dispatch (insn % cfg.dtSize)
        (.ok (insn,
          { st1 with icache_tag := upd st1.icache_tag idx addr,
                     icache_data := upd st1.icache_data idx insn,
                     icache_func := upd st1.icache_func idx f }), some f)

/-- Modelled from the spec: mmu_t::flush_icache (mmu.cc is not in src/):
resets every ICache tag to the sentinel. -/
def flush_icache (st : MMUState) : MMUState :=
  { st with icache_tag := fun _ => SENTINEL }

/-- Modelled from the spec: mmu_t::flush_tlb (mmu.cc is not in src/):
resets every TLB tag of all three access-kind arrays to the sentinel and
also flushes the ICache, so that a page-table-base change invalidates
both caches. -/
def flush_tlb (st : MMUState) : MMUState :=
  flush_icache
    { st with tlb_insn_tag := fun _ => SENTINEL,
              tlb_load_tag := fun _ => SENTINEL,
              tlb_store_tag := fun _ => SENTINEL }

/-- mmu_t::set_ptbr (mmu.h line 137): ptbr = addr & ~(PGSIZE-1), then
flush_tlb(). -/
def set_ptbr (st : MMUState) (addr : Nat) : MMUState :=
  flush_tlb { st with ptbr := addr / PGSIZE * PGSIZE }

/-- A baseline concrete state: zeroed 2 MiB buffer, flushed caches,
virtual memory disabled, unprivileged. -/
def st0 : MMUState :=
  { mem := fun _ => 0, memsz := 2 ^ 21, badvaddr := 0, ptbr := 0,
    supervisor := false, vm_enabled := false,
    tlb_data := fun _ => 0,
    tlb_insn_tag := fun _ => SENTINEL,
    tlb_load_tag := fun _ => SENTINEL,
    tlb_store_tag := fun _ => SENTINEL,
    icache_data := fun _ => 0,
    icache_func := fun _ => 7,
    icache_tag := fun _ => SENTINEL }

-- concrete configurations and states used by the witnesses and counterexamples

def stHit : MMUState := { st0 with tlb_load_tag := fun _ => 0 }

def cfgC1 : ProcCfg :=
  { dtSize := 3, dispatch := fun n => n, isRVC := fun x => decide (x &&& 3 < 3) }

def stC8 : MMUState := { st0 with memsz := 0 }

def stC9 : MMUState :=
  { st0 with tlb_insn_tag := fun _ => 0,
             mem := fun a => if a = 2 then 1 else 0 }

def stC1 : MMUState :=
  { st0 with tlb_insn_tag := fun _ => 0, tlb_data := fun _ => 0,
             mem := fun a => if a = 2 then 3 else if a = 4 then 1 else 0 }

-- general lemmas about the embedded operations, shared by the claim theorems


theorem readBytes_lt (mem : Nat → Nat) (off : Nat) :
    ∀ n, readBytes mem off n < 2 ^ (8 * n) := by
  intro n
  induction n generalizing off with
  | zero => simp [readBytes]
  | succ k ih =>
    have h1 : mem off % 256 < 256 := Nat.mod_lt _ (by omega)
    have h2 := ih (off + 1)
    have : 2 ^ (8 * (k + 1)) = 256 * 2 ^ (8 * k) := by
      rw [Nat.mul_add, Nat.pow_add]; ring
    rw [readBytes, this]
    omega

theorem lor_aligned_add {d off : Nat} (hd : d % PGSIZE = 0) (hoff : off < PGSIZE) :
    off ||| d = d + off := by
  have hpg : PGSIZE = 2 ^ 12 := by decide
  rw [hpg] at hd hoff
  obtain ⟨q, hq⟩ := Nat.dvd_of_mod_eq_zero hd
  subst hq
  rw [Nat.lor_comm, ← Nat.mul_add_lt_is_or hoff q]

theorem refill_error_inv {st : MMUState} {addr : Nat} {s f : Bool} {t : Trap} {st2 : MMUState}
    (h : refill st addr s f = .error (t, st2)) :
    (t = pageFaultFor s f ∨ t = accessFaultFor s f) ∧ st2 = { st with badvaddr := addr } := by
  unfold refill at h
  cases hw : walk st addr with
  | none =>
    rw [hw] at h
    simp only [Except.error.injEq, Prod.mk.injEq] at h
    exact ⟨Or.inl h.1.symm, h.2.symm⟩
  | some pte =>
    rw [hw] at h
    by_cases hp : pte &&& permBit st.supervisor s f = 0
    · simp only [if_pos hp, Except.error.injEq, Prod.mk.injEq] at h
      exact ⟨Or.inr h.1.symm, h.2.symm⟩
    · simp only [if_neg hp] at h
      exact absurd h (by simp)

theorem refill_ok_frame {st : MMUState} {addr : Nat} {s f : Bool} {p : Nat} {st2 : MMUState}
    (h : refill st addr s f = .ok (p, st2)) :
    st2.mem = st.mem ∧ st2.badvaddr = st.badvaddr ∧ st2.memsz = st.memsz ∧
      st2.icache_tag = st.icache_tag ∧ st2.icache_data = st.icache_data ∧
      st2.icache_func = st.icache_func := by
  unfold refill at h
  cases hw : walk st addr with
  | none => rw [hw] at h; exact absurd h (by simp)
  | some pte =>
    rw [hw] at h
    by_cases hp : pte &&& permBit st.supervisor s f = 0
    · simp only [if_pos hp] at h; exact absurd h (by simp)
    · simp only [if_neg hp, Except.ok.injEq, Prod.mk.injEq] at h
      obtain ⟨-, h2⟩ := h
      subst h2
      cases f <;> cases s <;> simp

theorem refill_ok_inv {st : MMUState} {addr : Nat} {s f : Bool} {p : Nat} {st2 : MMUState}
    (h : refill st addr s f = .ok (p, st2)) :
    ∃ pte, walk st addr = some pte ∧
      pte &&& permBit st.supervisor s f ≠ 0 ∧
      p = pte >>> PTE_PPN_SHIFT <<< PGSHIFT ||| addr % PGSIZE ∧
      st2.tlb_data = upd st.tlb_data ((addr >>> PGSHIFT) % TLB_ENTRIES)
        (pte >>> PTE_PPN_SHIFT <<< PGSHIFT) ∧
      (f = true →
        st2.tlb_insn_tag = upd st.tlb_insn_tag ((addr >>> PGSHIFT) % TLB_ENTRIES)
          (addr / PGSIZE * PGSIZE) ∧
        st2.tlb_load_tag = st.tlb_load_tag ∧ st2.tlb_store_tag = st.tlb_store_tag) ∧
      (f = false → s = true →
        st2.tlb_store_tag = upd st.tlb_store_tag ((addr >>> PGSHIFT) % TLB_ENTRIES)
          (addr / PGSIZE * PGSIZE) ∧
        st2.tlb_load_tag = st.tlb_load_tag ∧ st2.tlb_insn_tag = st.tlb_insn_tag) ∧
      (f = false → s = false →
        st2.tlb_load_tag = upd st.tlb_load_tag ((addr >>> PGSHIFT) % TLB_ENTRIES)
          (addr / PGSIZE * PGSIZE) ∧
        st2.tlb_store_tag = st.tlb_store_tag ∧ st2.tlb_insn_tag = st.tlb_insn_tag) := by
  unfold refill at h
  cases hw : walk st addr with
  | none => rw [hw] at h; exact absurd h (by simp)
  | some pte =>
    rw [hw] at h
    by_cases hp : pte &&& permBit st.supervisor s f = 0
    · simp only [if_pos hp] at h; exact absurd h (by simp)
    · simp only [if_neg hp, Except.ok.injEq, Prod.mk.injEq] at h
      obtain ⟨hpay, hst⟩ := h
      subst hst
      refine ⟨pte, rfl, hp, hpay.symm, ?_⟩
      cases f <;> cases s <;> simp

theorem translate_hit {st : MMUState} {addr : Nat} {s f : Bool}
    (h : (if f then st.tlb_insn_tag else if s then st.tlb_store_tag else st.tlb_load_tag)
        ((addr >>> PGSHIFT) % TLB_ENTRIES) = addr / PGSIZE * PGSIZE) :
    translate st addr s f
      = .ok (addr % PGSIZE ||| st.tlb_data ((addr >>> PGSHIFT) % TLB_ENTRIES), st) := by
  simp only [translate]
  rw [if_pos h]

theorem translate_miss {st : MMUState} {addr : Nat} {s f : Bool}
    (h : (if f then st.tlb_insn_tag else if s then st.tlb_store_tag else st.tlb_load_tag)
        ((addr >>> PGSHIFT) % TLB_ENTRIES) ≠ addr / PGSIZE * PGSIZE) :
    translate st addr s f = refill st addr s f := by
  simp only [translate]
  rw [if_neg h]

theorem translate_error_inv {st : MMUState} {addr : Nat} {s f : Bool} {t : Trap} {st2 : MMUState}
    (h : translate st addr s f = .error (t, st2)) :
    (t = pageFaultFor s f ∨ t = accessFaultFor s f) ∧ st2 = { st with badvaddr := addr } := by
  by_cases hc : (if f then st.tlb_insn_tag else if s then st.tlb_store_tag else st.tlb_load_tag)
      ((addr >>> PGSHIFT) % TLB_ENTRIES) = addr / PGSIZE * PGSIZE
  · rw [translate_hit hc] at h
    exact absurd h (by simp)
  · rw [translate_miss hc] at h
    exact refill_error_inv h

theorem translate_ok_frame {st : MMUState} {addr : Nat} {s f : Bool} {p : Nat} {st2 : MMUState}
    (h : translate st addr s f = .ok (p, st2)) :
    st2.mem = st.mem ∧ st2.badvaddr = st.badvaddr ∧ st2.memsz = st.memsz ∧
      st2.icache_tag = st.icache_tag ∧ st2.icache_data = st.icache_data ∧
      st2.icache_func = st.icache_func := by
  by_cases hc : (if f then st.tlb_insn_tag else if s then st.tlb_store_tag else st.tlb_load_tag)
      ((addr >>> PGSHIFT) % TLB_ENTRIES) = addr / PGSIZE * PGSIZE
  · rw [translate_hit hc] at h
    simp only [Except.ok.injEq, Prod.mk.injEq] at h
    rw [← h.2]
    exact ⟨rfl, rfl, rfl, rfl, rfl, rfl⟩
  · rw [translate_miss hc] at h
    exact refill_ok_frame h

theorem pgsize_eq : PGSIZE = 4096 := by decide

theorem sub_mod_pg (a : Nat) : a - a % PGSIZE = a / PGSIZE * PGSIZE := by
  rw [pgsize_eq]; omega

theorem writeBytes_frame :
    ∀ (n : Nat) (mem : Nat → Nat) (off v b : Nat),
      b < off ∨ off + n ≤ b → writeBytes mem off v n b = mem b := by
  intro n
  induction n with
  | zero => intro mem off v b _; rfl
  | succ k ih =>
    intro mem off v b hb
    rw [writeBytes, ih _ _ _ _ (by omega), upd]
    rw [if_neg (by omega)]

theorem readBytes_writeBytes :
    ∀ (n : Nat) (mem : Nat → Nat) (off v : Nat),
      readBytes (writeBytes mem off v n) off n = v % 2 ^ (8 * n) := by
  intro n
  induction n with
  | zero => intro mem off v; simp [readBytes, writeBytes, Nat.mod_one]
  | succ k ih =>
    intro mem off v
    rw [writeBytes, readBytes]
    rw [writeBytes_frame _ _ _ _ _ (by omega), upd, if_pos rfl]
    rw [ih]
    have hpow : 2 ^ (8 * (k + 1)) = 256 * 2 ^ (8 * k) := by
      rw [Nat.mul_add, Nat.pow_add]; ring
    rw [hpow, Nat.mod_mul]
    omega

theorem lor_eq_zero_left {a b : Nat} (h : a ||| b = 0) : a = 0 := by
  apply Nat.eq_of_testBit_eq
  intro i
  have hc := congrArg (fun x => Nat.testBit x i) h
  simp only [Nat.testBit_or, Nat.zero_testBit, Bool.or_eq_false_iff] at hc
  simp [hc.1]

theorem lor_shiftRight (x y n : Nat) : (x ||| y) >>> n = x >>> n ||| y >>> n := by
  apply Nat.eq_of_testBit_eq
  intro i
  simp [Nat.testBit_shiftRight, Nat.testBit_or]

theorem identity_pte_perm (q : Nat) (sup s f : Bool) :
    (PTE_E ||| PTE_PERM ||| (q <<< PTE_PPN_SHIFT)) &&& permBit sup s f ≠ 0 := by
  intro h0
  rw [Nat.and_distrib_right] at h0
  have h1 := lor_eq_zero_left h0
  have h2 : (PTE_E ||| PTE_PERM) &&& permBit sup s f ≠ 0 := by
    cases sup <;> cases s <;> cases f <;> decide
  exact h2 h1

theorem identity_pte_ppn (q : Nat) :
    (PTE_E ||| PTE_PERM ||| (q <<< PTE_PPN_SHIFT)) >>> PTE_PPN_SHIFT = q := by
  rw [lor_shiftRight]
  have h1 : (PTE_E ||| PTE_PERM) >>> PTE_PPN_SHIFT = 0 := by decide
  rw [h1, Nat.zero_or, Nat.shiftLeft_eq, Nat.shiftRight_eq_div_pow]
  exact Nat.mul_div_cancel q (by decide)

-- the claim theorems

/-- C2: set_page_table_base stores the page-aligned address and
invalidates every TLB and ICache slot: afterwards no slot tag compares
equal to any page-aligned TLB tag or any (even) fetch-address ICache
tag that could previously have been valid. -/
theorem set_ptbr_invalidates (st : MMUState) (addr : Nat) :
    (set_ptbr st addr).ptbr = addr - addr % PGSIZE ∧
    (set_ptbr st addr).ptbr % PGSIZE = 0 ∧
    (∀ i t, t % PGSIZE = 0 →
      (set_ptbr st addr).tlb_insn_tag i ≠ t ∧
      (set_ptbr st addr).tlb_load_tag i ≠ t ∧
      (set_ptbr st addr).tlb_store_tag i ≠ t) ∧
    (∀ i t, t % 2 = 0 → (set_ptbr st addr).icache_tag i ≠ t) := by
  have hs : SENTINEL = 18446744073709551615 := by decide
  have hp := pgsize_eq
  refine ⟨?_, ?_, ?_, ?_⟩
  · simp only [set_ptbr, flush_tlb, flush_icache]
    rw [hp]; omega
  · simp only [set_ptbr, flush_tlb, flush_icache]
    rw [hp]; omega
  · intro i t ht
    simp only [set_ptbr, flush_tlb, flush_icache]
    rw [hp] at ht
    rw [hs]
    omega
  · intro i t ht
    simp only [set_ptbr, flush_tlb, flush_icache]
    rw [hs]
    omega

theorem set_ptbr_invalidates_witness :
    (set_ptbr st0 5000).ptbr = 4096 ∧
    (set_ptbr st0 5000).tlb_load_tag 3 ≠ 0 ∧
    (set_ptbr st0 5000).icache_tag 5 ≠ 8 := by
  have h := set_ptbr_invalidates st0 5000
  refine ⟨?_, (h.2.2.1 3 0 (by decide)).2.1, h.2.2.2 5 8 (by decide)⟩
  rw [h.1]
  decide

/-- C5: for widths 8/16/32/64 bits, loads and stores raise the load- or
store-tagged misalignment fault exactly when the address is not a
multiple of the access size in bytes, and a misaligned call records the
address in badvaddr in the state surfaced with the fault. -/
theorem access_misaligned_iff (st : MMUState) (a v sz : Nat)
    (_hsz : sz = 1 ∨ sz = 2 ∨ sz = 4 ∨ sz = 8) :
    ((∃ st2, load_value st sz a = .error (.load_address_misaligned, st2)) ↔ a % sz ≠ 0) ∧
    ((∃ st2, store_value st sz a v = .error (.store_address_misaligned, st2)) ↔ a % sz ≠ 0) ∧
    (a % sz ≠ 0 →
      load_value st sz a = .error (.load_address_misaligned, { st with badvaddr := a }) ∧
      store_value st sz a v = .error (.store_address_misaligned, { st with badvaddr := a })) := by
  refine ⟨⟨?_, ?_⟩, ⟨?_, ?_⟩, ?_⟩
  · rintro ⟨st2, h⟩
    by_contra hal
    rw [load_value, if_neg (not_not_intro hal)] at h
    cases ht : translate st a false false with
    | ok x =>
      rw [ht] at h
      exact absurd h (by simp)
    | error e =>
      obtain ⟨t, st3⟩ := e
      rw [ht] at h
      simp only [Except.error.injEq, Prod.mk.injEq] at h
      have hinv := (translate_error_inv ht).1
      simp only [pageFaultFor, accessFaultFor, if_neg (by simp : ¬False)] at hinv
      rcases hinv with h1 | h1 <;> rw [h1] at h <;> simp [pageFaultFor, accessFaultFor] at h
  · intro h
    exact ⟨_, by rw [load_value, if_pos h]⟩
  · rintro ⟨st2, h⟩
    by_contra hal
    rw [store_value, if_neg (not_not_intro hal)] at h
    cases ht : translate st a true false with
    | ok x =>
      rw [ht] at h
      exact absurd h (by simp)
    | error e =>
      obtain ⟨t, st3⟩ := e
      rw [ht] at h
      simp only [Except.error.injEq, Prod.mk.injEq] at h
      have hinv := (translate_error_inv ht).1
      rcases hinv with h1 | h1 <;> rw [h1] at h <;> simp [pageFaultFor, accessFaultFor] at h
  · intro h
    exact ⟨_, by rw [store_value, if_pos h]⟩
  · intro h
    exact ⟨by rw [load_value, if_pos h], by rw [store_value, if_pos h]⟩

theorem access_misaligned_iff_witness :
    load_value st0 4 1001 = .error (.load_address_misaligned, { st0 with badvaddr := 1001 }) ∧
    store_value st0 4 1001 9 = .error (.store_address_misaligned, { st0 with badvaddr := 1001 }) :=
  (access_misaligned_iff st0 1001 9 4 (by decide)).2.2 (by decide)

/-- C6: the fast-path translate indexes the TLB with
(addr >> PGSHIFT) mod TLB_ENTRIES, compares the matching access-kind tag
against the page-aligned address; a match returns the page offset
combined with the cached physical page base (their sum when the base is
page-aligned, as the refill invariant guarantees), a mismatch delegates
to refill. -/
theorem translate_fast_path (st : MMUState) (addr : Nat) (s f : Bool) :
    ((if f then st.tlb_insn_tag else if s then st.tlb_store_tag else st.tlb_load_tag)
        ((addr >>> PGSHIFT) % TLB_ENTRIES) = addr - addr % PGSIZE →
      translate st addr s f
        = .ok (addr % PGSIZE ||| st.tlb_data ((addr >>> PGSHIFT) % TLB_ENTRIES), st) ∧
      (st.tlb_data ((addr >>> PGSHIFT) % TLB_ENTRIES) % PGSIZE = 0 →
        addr % PGSIZE ||| st.tlb_data ((addr >>> PGSHIFT) % TLB_ENTRIES)
          = st.tlb_data ((addr >>> PGSHIFT) % TLB_ENTRIES) + addr % PGSIZE)) ∧
    ((if f then st.tlb_insn_tag else if s then st.tlb_store_tag else st.tlb_load_tag)
        ((addr >>> PGSHIFT) % TLB_ENTRIES) ≠ addr - addr % PGSIZE →
      translate st addr s f = refill st addr s f) := by
  rw [sub_mod_pg]
  constructor
  · intro h
    refine ⟨translate_hit h, fun hd => ?_⟩
    exact lor_aligned_add hd (Nat.mod_lt _ (by decide))
  · intro h
    exact translate_miss h

theorem translate_fast_path_witness :
    translate stHit 5 false false
      = .ok (5 % PGSIZE ||| stHit.tlb_data ((5 >>> PGSHIFT) % TLB_ENTRIES), stHit) ∧
    translate st0 5 false false = refill st0 5 false false :=
  ⟨((translate_fast_path stHit 5 false false).1 (by decide)).1,
   (translate_fast_path st0 5 false false).2 (by decide)⟩

/-- C7: a store either fully fails leaving the backing memory unmodified
(misalignment, page fault or access violation), or fully completes,
writing exactly the truncated low 8*sz bits of the value at the resolved
location and changing no other byte. -/
theorem store_all_or_nothing (st : MMUState) (sz a v : Nat)
    (_hsz : sz = 1 ∨ sz = 2 ∨ sz = 4 ∨ sz = 8) :
    (∀ t st2, store_value st sz a v = .error (t, st2) → st2.mem = st.mem) ∧
    (∀ st2, store_value st sz a v = .ok ((), st2) →
      ∃ p st1, translate st a true false = .ok (p, st1) ∧
        st2.mem = writeBytes st.mem p v sz ∧
        readBytes st2.mem p sz = v % 2 ^ (8 * sz) ∧
        ∀ b, b < p ∨ p + sz ≤ b → st2.mem b = st.mem b) := by
  constructor
  · intro t st2 h
    by_cases hal : a % sz ≠ 0
    · rw [store_value, if_pos hal] at h
      simp only [Except.error.injEq, Prod.mk.injEq] at h
      rw [← h.2]
    · rw [store_value, if_neg hal] at h
      cases ht : translate st a true false with
      | ok x =>
        rw [ht] at h
        exact absurd h (by simp)
      | error e =>
        obtain ⟨t3, st3⟩ := e
        rw [ht] at h
        simp only [Except.error.injEq, Prod.mk.injEq] at h
        rw [← h.2]
        rw [(translate_error_inv ht).2]
  · intro st2 h
    by_cases hal : a % sz ≠ 0
    · rw [store_value, if_pos hal] at h
      exact absurd h (by simp)
    · rw [store_value, if_neg hal] at h
      cases ht : translate st a true false with
      | error e =>
        rw [ht] at h
        exact absurd h (by simp)
      | ok x =>
        obtain ⟨p, st1⟩ := x
        rw [ht] at h
        simp only [Except.ok.injEq, Prod.mk.injEq, true_and] at h
        have hmem : st1.mem = st.mem := (translate_ok_frame ht).1
        refine ⟨p, st1, rfl, ?_, ?_, ?_⟩
        · rw [← h, hmem]
        · rw [← h, readBytes_writeBytes]
        · intro b hb
          rw [← h, hmem]
          exact writeBytes_frame _ _ _ _ _ hb

theorem store_all_or_nothing_witness :
    ({ st0 with badvaddr := 1001 } : MMUState).mem = st0.mem :=
  (store_all_or_nothing st0 4 1001 9 (by decide)).1 .store_address_misaligned _ rfl

/-- C8: on the aligned fetch path the cached decode handle is written to
the out-parameter func before the ICache tag check, so an ICache miss
whose translation faults leaves the stale cached handle in func even
though the fetch fails. -/
theorem load_insn_stale_func (cfg : ProcCfg) (st : MMUState) (addr : Nat) (rvc : Bool)
    (hm : ¬(addr % 4 = 2 ∧ rvc = true))
    (htag : st.icache_tag (addr / 4 % ICACHE_ENTRIES) ≠ addr)
    (e : Trap × MMUState) (ht : translate st addr false true = .error e) :
    load_insn cfg st addr rvc = (.error e, some (st.icache_func (addr / 4 % ICACHE_ENTRIES))) := by
  rw [load_insn, if_neg hm]
  simp only
  rw [if_neg htag, ht]

theorem load_insn_stale_func_witness :
    load_insn cfgC1 stC8 8 false
      = (.error (.instruction_page_fault, { stC8 with badvaddr := 8 }), some 7) :=
  load_insn_stale_func cfgC1 stC8 8 false (by decide) (by decide) _ rfl

/-- C9: a misaligned variable-length fetch whose low half-word is a
complete short-form instruction returns the half-word loaded by zero
extension: the upper 16 bits of the returned 32-bit container are zero. -/
theorem load_insn_rvc_zero_extends (cfg : ProcCfg) (st : MMUState) (addr : Nat)
    (h2 : addr % 4 = 2)
    (pLo : Nat) (st1 : MMUState) (ht : translate st addr false true = .ok (pLo, st1))
    (hrvc : cfg.isRVC (readBytes st1.mem pLo 2) = true) :
    load_insn cfg st addr true
      = (.ok (readBytes st1.mem pLo 2, st1),
         some (cfg.dispatch (readBytes st1.mem pLo 2 % cfg.dtSize))) ∧
    readBytes st1.mem pLo 2 >>> 16 = 0 := by
  constructor
  · rw [load_insn, if_pos ⟨h2, rfl⟩, ht]
    simp only
    rw [if_pos hrvc]
  · rw [Nat.shiftRight_eq_div_pow]
    exact Nat.div_eq_of_lt (readBytes_lt st1.mem pLo 2)

theorem load_insn_rvc_zero_extends_witness :
    load_insn cfgC1 stC9 2 true = (.ok (readBytes stC9.mem 2 2, stC9), some (cfgC1.dispatch (readBytes stC9.mem 2 2 % cfgC1.dtSize))) ∧
    readBytes stC9.mem 2 2 >>> 16 = 0 :=
  load_insn_rvc_zero_extends cfgC1 stC9 2 (by decide) 2 stC9 rfl (by decide)

/-- C10: load_insn performs no alignment check of its own: for every
address, mode and state, any fault it surfaces is a translation fault,
never a misaligned-access fault. -/
theorem load_insn_never_misaligned (cfg : ProcCfg) (st : MMUState) (addr : Nat) (rvc : Bool)
    (t : Trap) (st2 : MMUState)
    (h : (load_insn cfg st addr rvc).1 = .error (t, st2)) :
    t.isMisaligned = false := by
  have base : ∀ (st3 : MMUState) (a : Nat) (e : Trap × MMUState),
      translate st3 a false true = .error e → e.1.isMisaligned = false := by
    intro st3 a e he
    obtain ⟨h1, -⟩ := translate_error_inv he
    rcases h1 with h1 | h1 <;> rw [h1] <;> rfl
  by_cases hm : addr % 4 = 2 ∧ rvc = true
  · rw [load_insn, if_pos hm] at h
    cases ht : translate st addr false true with
    | error e =>
      rw [ht] at h
      simp only [Except.error.injEq] at h
      have := base st addr e ht
      rw [h] at this
      exact this
    | ok x =>
      obtain ⟨pLo, st1⟩ := x
      rw [ht] at h
      simp only at h
      by_cases hr : cfg.isRVC (readBytes st1.mem pLo 2) = true
      · rw [if_pos hr] at h
        exact absurd h (by simp)
      · rw [if_neg hr] at h
        cases ht2 : translate st1 (addr + 2) false true with
        | error e2 =>
          rw [ht2] at h
          simp only [Except.error.injEq] at h
          have := base st1 (addr + 2) e2 ht2
          rw [h] at this
          exact this
        | ok x2 =>
          rw [ht2] at h
          exact absurd h (by simp)
  · rw [load_insn, if_neg hm] at h
    simp only at h
    by_cases htag : st.icache_tag (addr / 4 % ICACHE_ENTRIES) = addr
    · rw [if_pos htag] at h
      exact absurd h (by simp)
    · rw [if_neg htag] at h
      cases ht : translate st addr false true with
      | error e =>
        rw [ht] at h
        simp only [Except.error.injEq] at h
        have := base st addr e ht
        rw [h] at this
        exact this
      | ok x =>
        rw [ht] at h
        exact absurd h (by simp)

theorem load_insn_never_misaligned_witness : Trap.isMisaligned .instruction_page_fault = false :=
  load_insn_never_misaligned cfgC1 stC8 8 false .instruction_page_fault
    { stC8 with badvaddr := 8 } rfl

/-- C1, counterexample: at address 2 in variable-length mode, the low
half-word 0x0003 is not a complete short-form instruction, the fetch
returns the full concatenated instruction 0x10003, yet the decode handle
left in func is the lookup of the LOW half-word (dispatch slot 3 mod 3 =
0), not the lookup of the full concatenated bits (slot 0x10003 mod 3 =
1): the handle is computed before the high half-word is fetched. -/
theorem fetch_handle_counterexample :
    resultAddr (load_insn cfgC1 stC1 2 true).1 = some 65539 ∧
    (load_insn cfgC1 stC1 2 true).2 ≠ some (cfgC1.dispatch (65539 % cfgC1.dtSize)) ∧
    (load_insn cfgC1 stC1 2 true).2 = some (cfgC1.dispatch (3 % cfgC1.dtSize)) := by
  refine ⟨by decide, by decide, by decide⟩

/-- C1, amended: a misaligned variable-length fetch bypasses the ICache
(the ICache arrays of the final state are those of the initial state),
translates the low half-word with fetch kind, and, when it is not a
complete short-form instruction, independently translates the following
half-word and returns the concatenated 32-bit instruction; but the
decode handle is looked up from the LOW half-word alone (before the
concatenation), so it equals the dispatch entry of the low 16 bits, not
in general that of the full instruction. -/
theorem fetch_misaligned_path (cfg : ProcCfg) (st : MMUState) (addr : Nat)
    (h2 : addr % 4 = 2)
    (pLo : Nat) (st1 : MMUState) (htLo : translate st addr false true = .ok (pLo, st1))
    (hnc : cfg.isRVC (readBytes st1.mem pLo 2) = false)
    (pHi : Nat) (st2 : MMUState)
    (htHi : translate st1 (addr + 2) false true = .ok (pHi, st2)) :
    load_insn cfg st addr true
      = (.ok (readBytes st1.mem pLo 2 ||| readBytes st2.mem pHi 2 <<< 16, st2),
         some (cfg.dispatch (readBytes st1.mem pLo 2 % cfg.dtSize))) ∧
    st2.icache_tag = st.icache_tag ∧ st2.icache_data = st.icache_data ∧
    st2.icache_func = st.icache_func := by
  have f1 := translate_ok_frame htLo
  have f2 := translate_ok_frame htHi
  refine ⟨?_, ?_, ?_, ?_⟩
  · rw [load_insn, if_pos ⟨h2, rfl⟩, htLo]
    simp only
    rw [if_neg (by simp [hnc]), htHi]
  · rw [f2.2.2.2.1, f1.2.2.2.1]
  · rw [f2.2.2.2.2.1, f1.2.2.2.2.1]
  · rw [f2.2.2.2.2.2, f1.2.2.2.2.2]

theorem fetch_misaligned_path_witness :
    load_insn cfgC1 stC1 2 true
      = (.ok (readBytes stC1.mem 2 2 ||| readBytes stC1.mem 4 2 <<< 16, stC1),
         some (cfgC1.dispatch (readBytes stC1.mem 2 2 % cfgC1.dtSize))) ∧
    stC1.icache_tag = stC1.icache_tag ∧ stC1.icache_data = stC1.icache_data ∧
    stC1.icache_func = stC1.icache_func :=
  fetch_misaligned_path cfgC1 stC1 2 (by decide) 2 stC1 rfl (by decide) 4 stC1 rfl

/-- C3, counterexample: with virtual memory disabled, a load refill for
address 4 (page 0, physical base 0, resolved offset 4) followed by a
store refill for address 0x100008 (page 256, same TLB slot 0, physical
base 0x100000) leaves the load tag for page 0 still valid, yet the next
load hit at address 4 returns offset 0x100004, the base installed by the
STORE refill, not the base 0 that the load refill installed: the two
kinds are not independent, because tlb_data is one shared array. -/
theorem tlb_kind_counterexample :
    resultAddr (translate st0 4 false false) = some 4 ∧
    (stateOf (translate (stateOf (translate st0 4 false false)) 1048584 true false)).tlb_load_tag 0
      = 0 ∧
    resultAddr
        (translate
          (stateOf (translate (stateOf (translate st0 4 false false)) 1048584 true false))
          4 false false)
      = some 1048580 ∧
    (1048580 : Nat) ≠ 4 :=
  ⟨by decide, by decide, by decide, by decide⟩

/-- C3, amended: the per-kind tag arrays are independent: a refill for
any one kind changes no other kind's tag array, so two kinds can
simultaneously hold valid entries for different pages. But the resolved
physical page base lives in the single shared tlb_data array: after a
refill of any kind into a slot, a hit of every kind on that slot returns
the base that refill installed, not the base installed for the hitting
kind. -/
theorem tlb_kind_tags_independent_data_shared (st : MMUState) (addr p : Nat) (st2 : MMUState)
    (s f : Bool) (h : refill st addr s f = .ok (p, st2)) :
    (f = true → st2.tlb_load_tag = st.tlb_load_tag ∧ st2.tlb_store_tag = st.tlb_store_tag) ∧
    (f = false → s = true →
      st2.tlb_load_tag = st.tlb_load_tag ∧ st2.tlb_insn_tag = st.tlb_insn_tag) ∧
    (f = false → s = false →
      st2.tlb_store_tag = st.tlb_store_tag ∧ st2.tlb_insn_tag = st.tlb_insn_tag) ∧
    ∃ pte, walk st addr = some pte ∧
      st2.tlb_data ((addr >>> PGSHIFT) % TLB_ENTRIES) = pte >>> PTE_PPN_SHIFT <<< PGSHIFT ∧
      ∀ a2 (s2 f2 : Bool),
        (a2 >>> PGSHIFT) % TLB_ENTRIES = (addr >>> PGSHIFT) % TLB_ENTRIES →
        (if f2 then st2.tlb_insn_tag else if s2 then st2.tlb_store_tag else st2.tlb_load_tag)
            ((a2 >>> PGSHIFT) % TLB_ENTRIES) = a2 / PGSIZE * PGSIZE →
        translate st2 a2 s2 f2
          = .ok (a2 % PGSIZE ||| pte >>> PTE_PPN_SHIFT <<< PGSHIFT, st2) := by
  obtain ⟨pte, hw, hperm, hpv, hdata, hf, hfs, hls⟩ := refill_ok_inv h
  refine ⟨fun hft => ⟨(hf hft).2.1, (hf hft).2.2⟩,
          fun hff hst => ⟨(hfs hff hst).2.1, (hfs hff hst).2.2⟩,
          fun hff hsf => ⟨(hls hff hsf).2.1, (hls hff hsf).2.2⟩,
          pte, hw, ?_, ?_⟩
  · rw [hdata]
    simp [upd]
  · intro a2 s2 f2 hidx htag
    rw [translate_hit htag, hdata]
    simp [upd, hidx]

theorem tlb_kind_tags_independent_data_shared_witness :
    (stateOf (translate (stateOf (translate st0 4 false false)) 1048584 true false)).tlb_load_tag
        = (stateOf (translate st0 4 false false)).tlb_load_tag ∧
    translate (stateOf (translate (stateOf (translate st0 4 false false)) 1048584 true false))
        4 false false
      = .ok (1048580,
          stateOf (translate (stateOf (translate st0 4 false false)) 1048584 true false)) := by
  have h := tlb_kind_tags_independent_data_shared (stateOf (translate st0 4 false false)) 1048584
      (1048584 % PGSIZE ||| 256 <<< PGSHIFT)
      (stateOf (translate (stateOf (translate st0 4 false false)) 1048584 true false))
      true false rfl
  obtain ⟨-, hload, -, pte, hw, hd, hhit⟩ := h
  have hval : walk (stateOf (translate st0 4 false false)) 1048584 = some 1049586 := by decide
  rw [hval] at hw
  have hpte : (1049586 : Nat) = pte := Option.some.inj hw
  subst hpte
  exact ⟨(hload rfl rfl).1, hhit 4 false false (by decide) (by decide)⟩

/-- C4, counterexample: with virtual memory disabled, translate still
performs the TLB lookup and delegates to refill (which visibly installs
a TLB entry), so the disabled case is not an explicit bypass taken
before any cache lookup or walk; moreover the resolution is not
unconditionally the identity: a TLB hit on a slot whose shared tlb_data
was overwritten by a refill of another kind resolves in-buffer address 4
to 1048580, and an out-of-buffer address page-faults. -/
theorem vm_disabled_counterexample :
    st0.vm_enabled = false ∧
    translate st0 100 false false = refill st0 100 false false ∧
    resultAddr (translate st0 100 false false) = some 100 ∧
    (stateOf (translate st0 100 false false)).tlb_load_tag 0 = 0 ∧
    st0.tlb_load_tag 0 ≠ 0 ∧
    (stateOf (translate (stateOf (translate st0 4 false false)) 1048584 true false)).vm_enabled
      = false ∧
    4 < (stateOf (translate (stateOf (translate st0 4 false false)) 1048584 true false)).memsz ∧
    resultAddr
        (translate (stateOf (translate (stateOf (translate st0 4 false false)) 1048584 true false))
          4 false false)
      = some 1048580 ∧
    (1048580 : Nat) ≠ 4 ∧
    stC8.vm_enabled = false ∧
    resultTrap (translate stC8 8 false false) = some .load_page_fault :=
  ⟨rfl, translate_miss (by decide), by decide, by decide, by decide, by decide, by decide,
   by decide, by decide, rfl, by decide⟩

/-- C4, amended: when the virtual-memory-enabled flag is false there is
no explicit bypass: translate performs the TLB lookup first for every
address and access kind, a tag hit returns the cached entry without
consulting the flag, and a tag miss delegates to the Refill Unit, whose
walk succeeds trivially with the identity mapping, so a miss on an
in-buffer address resolves to exactly the address and installs a TLB
entry, while a miss on an out-of-buffer address raises the kind-tagged
page fault. -/
theorem translate_vm_disabled (st : MMUState) (addr : Nat) (s f : Bool)
    (hvm : st.vm_enabled = false) :
    ((if f then st.tlb_insn_tag else if s then st.tlb_store_tag else st.tlb_load_tag)
        ((addr >>> PGSHIFT) % TLB_ENTRIES) = addr / PGSIZE * PGSIZE →
      translate st addr s f
        = .ok (addr % PGSIZE ||| st.tlb_data ((addr >>> PGSHIFT) % TLB_ENTRIES), st)) ∧
    ((if f then st.tlb_insn_tag else if s then st.tlb_store_tag else st.tlb_load_tag)
        ((addr >>> PGSHIFT) % TLB_ENTRIES) ≠ addr / PGSIZE * PGSIZE →
      translate st addr s f = refill st addr s f ∧
      (addr < st.memsz →
        resultAddr (translate st addr s f) = some addr ∧
        (stateOf (translate st addr s f)).tlb_data ((addr >>> PGSHIFT) % TLB_ENTRIES)
          = addr / PGSIZE * PGSIZE) ∧
      (st.memsz ≤ addr →
        translate st addr s f = .error (pageFaultFor s f, { st with badvaddr := addr }))) := by
  constructor
  · intro hhit
    exact translate_hit hhit
  · intro hmiss
    have hmiss2 := translate_miss hmiss
    refine ⟨hmiss2, ?_, ?_⟩
    · intro hin
      have hw : walk st addr
          = some (PTE_E ||| PTE_PERM ||| ((addr >>> PGSHIFT) <<< PTE_PPN_SHIFT)) := by
        rw [walk, if_pos hvm, if_pos hin]
      have hb : ((PTE_E ||| PTE_PERM ||| ((addr >>> PGSHIFT) <<< PTE_PPN_SHIFT))
            >>> PTE_PPN_SHIFT) <<< PGSHIFT = addr / PGSIZE * PGSIZE := by
        have h2p : (2 : Nat) ^ PGSHIFT = 4096 := by decide
        rw [identity_pte_ppn, Nat.shiftLeft_eq, Nat.shiftRight_eq_div_pow, pgsize_eq, h2p]
      have hres : addr / PGSIZE * PGSIZE ||| addr % PGSIZE = addr := by
        rw [Nat.lor_comm, lor_aligned_add (Nat.mul_mod_left _ _) (Nat.mod_lt _ (by decide))]
        rw [pgsize_eq]
        omega
      constructor <;>
        rw [hmiss2, refill, hw] <;>
        cases f <;> cases s <;>
        simp [if_neg (identity_pte_perm _ _ _ _), resultAddr, stateOf, upd, hb, hres]
    · intro hout
      have hw : walk st addr = none := by
        rw [walk, if_pos hvm, if_neg (by omega)]
      rw [hmiss2, refill, hw]

theorem translate_vm_disabled_witness :
    translate st0 40964 true false = refill st0 40964 true false ∧
    resultAddr (translate st0 40964 true false) = some 40964 ∧
    translate stC8 8 false false = .error (.load_page_fault, { stC8 with badvaddr := 8 }) ∧
    translate stHit 5 false false
      = .ok (5 % PGSIZE ||| stHit.tlb_data ((5 >>> PGSHIFT) % TLB_ENTRIES), stHit) := by
  have h1 := (translate_vm_disabled st0 40964 true false rfl).2 (by decide)
  have h2 := (translate_vm_disabled stC8 8 false false rfl).2 (by decide)
  have h3 := (translate_vm_disabled stHit 5 false false rfl).1 (by decide)
  exact ⟨h1.1, (h1.2.1 (by decide)).1, h2.2.2 (by decide), h3⟩

end MMU
